import Mathlib

/-!
# Verification of the feather block-state code generator (`scripts/blocks.py`)

This file gives a shallow embedding of `scripts/blocks.py`, the Python script
that reads the vanilla `blocks.json` data report and generates the Rust block
state module, together with an embedding of the *meaning* of the generated Rust
code (its `block_state_id`, `from_block_state_id`, `name` and `property_names`
functions), and proves or refutes the specification's claims about it.

Conventions:
* Python strings are Lean `String`s; the Python helpers (`str.title`,
  `str.split("_")`, `str.isdigit`) are embedded on the underlying `List Char`.
* The generated Rust code is embedded by its value-level semantics: a Rust
  block value is a `BlockValue` (variant name plus optional field assignment),
  match statements become first-match searches over the arms in generation
  order, and `panic!` becomes `Option.none`.
-/

/-- Embedding of Python `str.title()` (used by `snake_to_upper_camel` through
`x.title()`): a cased (here: ASCII alphabetic) character is uppercased when the
previous character is not cased, lowercased otherwise; other characters pass
through.  The `Bool` argument records whether the previous character was
cased. -/
def pyTitleAux : Bool → List Char → List Char
  | _, [] => []
  | prev, c :: cs =>
    if c.isAlpha then
      (if prev then c.toLower else c.toUpper) :: pyTitleAux true cs
    else
      c :: pyTitleAux false cs

/-- Embedding of Python `s.split("_")`: split at every underscore, keeping
empty segments, so that `"".split("_") == [""]` and
`"a__b".split("_") == ["a", "", "b"]`. -/
def splitUnderscore : List Char → List (List Char)
  | [] => [[]]
  | c :: cs =>
    if c = '_' then [] :: splitUnderscore cs
    else
      match splitUnderscore cs with
      | [] => [[c]]
      | g :: gs => (c :: g) :: gs

/-- Embedding of Python `str.isdigit()` for ASCII content: nonempty and all
characters are decimal digits.  In particular `"-1".isdigit()` is `false`. -/
def pyIsDigit (s : String) : Bool :=
  !s.data.isEmpty && s.data.all (fun c => c.isDigit)

/-- Rust keywords which the script suffixes with an underscore when used as a
field name (`KEYWORDS` in `blocks.py`). -/
def KEYWORDS : List String := ["type", "in"]

/-- Property names for which an enum is pre-created (`KNOWN_PROPERTIES` in
`blocks.py`). -/
def KNOWN_PROPERTIES : List String :=
  ["facing", "axis", "half", "face", "shape", "hinge", "part"]

/-- Function `strip_minecraft_identifier` from `blocks.py`: Python `s[10:]`, i.e. it
unconditionally drops the first ten characters of the identifier. -/
def strip_minecraft_identifier (s : String) : String :=
  ⟨s.data.drop 10⟩

/-- Function `snake_to_upper_camel` from `blocks.py`:
`"".join(x.title() for x in s.split("_"))`. -/
def snake_to_upper_camel (s : String) : String :=
  ⟨(splitUnderscore s.data).map (pyTitleAux false) |>.flatten⟩

/-- Function `get_type_from_value` from `blocks.py`: `"bool"` for the literals
`"true"`/`"false"`, `"i32"` when `val.isdigit()`, and the marker `"_enum"`
otherwise. -/
def get_type_from_value (val : String) : String :=
  if val = "true" ∨ val = "false" then ("bool")
  else if pyIsDigit val then ("i32")
  else ("_enum")

/-- Function `process_property_name` from `blocks.py`: append an underscore when the
name is a Rust keyword. -/
def process_property_name (s : String) : String :=
  if s ∈ KEYWORDS then s ++ "_" else s

/-- One state of a block in the `blocks.json` input: its global numeric id and
its ordered property assignment (`state["id"]`, `state["properties"]`). -/
structure StateDef where
  id : Nat
  props : List (String × String)
  deriving Repr, DecidableEq

/-- One block entry of the `blocks.json` input: the namespaced identifier, the
declared property domains (`obj["properties"]`, in declaration order), and the
ordered list of states (`obj["states"]`). -/
structure BlockDef where
  identifier : String
  properties : List (String × List String)
  states : List StateDef
  deriving Repr, DecidableEq

/-- The `block_name` computed in the main loop of `blocks.py`, camel-cased:
`snake_to_upper_camel(strip_minecraft_identifier(block_identifier))`. -/
def blockCamel (b : BlockDef) : String :=
  snake_to_upper_camel (strip_minecraft_identifier b.identifier)

/-- Flag `single_state = len(states) == 1` from `blocks.py`: this is the *only*
test the script uses to decide between a unit variant and a data-carrying
variant. -/
def isUnit (b : BlockDef) : Bool :=
  b.states.length == 1

/-- The entry the block contributes to `pub enum Block`: variant name plus
payload type (`None` for a unit variant, `Some` of the data struct name for a
carrier variant), mirroring `enum_code += camel + ",\n"` versus
`enum_code += camel + "(" + data_struct_name + "),\n"`. -/
def enumVariant (b : BlockDef) : String × Option String :=
  if isUnit b then (blockCamel b, none)
  else (blockCamel b, some (blockCamel b ++ "Data"))

/-- Value of a Rust expression appearing as a block-state property value in
the generated code: a `bool` literal, an `i32` literal, or an enum variant
(enum type name and variant name). -/
inductive RVal where
  | b (v : Bool)
  | i (v : Nat)
  | ev (ty : String) (variant : String)
  deriving Repr, DecidableEq

/-- Numeric value of a digit string (the Rust meaning of the emitted integer
literal). -/
def digitsToNat (s : String) : Nat :=
  s.data.foldl (fun n c => 10 * n + (c.toNat - 48)) 0

/-- The Rust value expression the script emits for one property value of one
state (the per-state conversion shared by the `state_if_code` equality tests
and the `from_block_state_id_code` struct literal, `blocks.py` lines 213-229):
`get_type_from_value` picks the shape, and in the `_enum` case the value
becomes `Ty::CamelValue` where `Ty` is the well-known enum name when the
property is in `KNOWN_PROPERTIES` and the block-scoped enum name otherwise. -/
def rust_val (camel prop_name prop_val : String) : RVal :=
  let ty := get_type_from_value prop_val
  if ty = "_enum" then
    let ty :=
      if prop_name ∈ KNOWN_PROPERTIES then snake_to_upper_camel prop_name
      else camel ++ snake_to_upper_camel prop_name
    RVal.ev ty (snake_to_upper_camel prop_val)
  else if ty = "bool" then RVal.b (prop_val = "true")
  else RVal.i (digitsToNat prop_val)

/-- The field assignment (escaped field name, Rust value) the generated code
builds from one state's `properties` map, in `iteritems()` order. -/
def statePropsR (camel : String) (s : StateDef) : List (String × RVal) :=
  s.props.map (fun p => (process_property_name p.1, rust_val camel p.1 p.2))

/-- A value of the generated `Block` enum: variant name plus, for carrier
variants, the field assignment of its data struct. -/
structure BlockValue where
  name : String
  fields : Option (List (String × RVal))
  deriving Repr, DecidableEq

/-- The `Block` value the generated `from_block_state_id` constructs for a
given state: the bare variant for a unit block, otherwise the carrier variant
holding the state's converted property assignment. -/
def stateValue (b : BlockDef) (s : StateDef) : BlockValue :=
  if isUnit b then ⟨blockCamel b, none⟩
  else ⟨blockCamel b, some (statePropsR (blockCamel b) s)⟩

/-- The decode arms of the generated `from_block_state_id`, in generation
order: one arm `id => Block::...` per state of every block, blocks in schema
order and states in declaration order.  No deduplication or duplicate
detection is performed. -/
def decodeEntries (schema : List BlockDef) : List (Nat × BlockValue) :=
  schema.flatMap (fun b => b.states.map (fun s => (s.id, stateValue b s)))

/-- Semantics of the generated `from_block_state_id`: a Rust `match` takes the
first arm whose pattern (here: the literal id) matches; the trailing
`_ => panic!("Unknown block state ID")` arm is `none`. -/
def fromBlockStateId (schema : List BlockDef) (id : Nat) : Option BlockValue :=
  (decodeEntries schema).lookup id

/-- One state's `state_if_code` predicate: the conjunction of the equality
tests `data.<field> == <value>` over the state's properties, evaluated
against a field assignment. -/
def predMatches (fields : List (String × RVal)) (sp : List (String × RVal)) : Bool :=
  sp.all (fun p => fields.lookup p.1 == some p.2)

/-- Semantics of a carrier block's arm in the generated `block_state_id`: the
first state (declaration order) whose `if` condition holds on the data struct
returns that state's id; falling through every `if` reaches the final
`panic!("Invalid block state")`, i.e. `none`. -/
def encodeBlock (b : BlockDef) (fields : List (String × RVal)) : Option Nat :=
  (b.states.find? (fun s => predMatches fields (statePropsR (blockCamel b) s))).map
    (fun s => s.id)

/-- Semantics of the generated `block_state_id`: dispatch on the variant of
the `Block` value (a unit variant returns its single fixed id, a carrier
variant runs its `if` chain); a value matching no arm reaches the
`panic!` cases, i.e. `none`. -/
def blockStateId (schema : List BlockDef) (v : BlockValue) : Option Nat :=
  match schema.find? (fun b => blockCamel b == v.name) with
  | none => none
  | some b =>
    match v.fields with
    | none => if isUnit b then (b.states.head?).map (fun s => s.id) else none
    | some fields => if isUnit b then none else encodeBlock b fields

/-- Semantics of the generated `name`: every arm is
`Block::Camel(..) => "<block_identifier>"`, returning the block's original
namespaced identifier and discarding any payload. -/
def nameOf (schema : List BlockDef) (v : BlockValue) : Option String :=
  (schema.find? (fun b => blockCamel b == v.name)).map (fun b => b.identifier)

/-- The struct-field type the properties loop of `blocks.py` (lines 169-187)
assigns to one declared property: `get_type_from_value(vals[0])`, overridden
*unconditionally* by the well-known enum name when the property is in
`KNOWN_PROPERTIES`, and replaced by the block-scoped enum name when the result
is the `"_enum"` marker. -/
def field_type (camel prop_name : String) (vals : List String) : String :=
  let ty := get_type_from_value (vals.headD (""))
  let ty :=
    if prop_name ∈ KNOWN_PROPERTIES then snake_to_upper_camel prop_name else ty
  if ty = "_enum" then camel ++ snake_to_upper_camel prop_name else ty

/-- The keys inserted into the map of the generated `property_names` for one
block's match arm: in `blocks.py` the insert runs *after*
`prop_name = process_property_name(prop_name)`, so the emitted key is the
escaped name.  Unit blocks get no arm (the default `_ => ()` leaves the map
empty). -/
def propertyNamesKeys (b : BlockDef) : List String :=
  if isUnit b then [] else b.properties.map (fun p => process_property_name p.1)

/-- Abstraction of the text written to the output file on the success path
(the `fout.write` calls at the end of `blocks.py`).  Only the file lifecycle
is at issue in the claims, not the exact emitted Rust text: the model keeps
the generated-file header and the enum variant names. -/
def emitOutput (schema : List BlockDef) : String :=
  "// This file was generated by /scripts/blocks.py\n\n" ++
    String.intercalate ("\n") (schema.map (fun b => (enumVariant b).1))

/-- Outcome of loading the input in one run of `blocks.py`: the input file
may be unreadable or missing (so `fin = open(in_path, "r+")` at line 75
raises), readable but structurally invalid (so `data = json.load(fin)` at
line 80 raises), or a well-formed schema. -/
inductive LoadOutcome where
  | unreadable
  | invalid
  | ok (schema : List BlockDef)
  deriving Repr, DecidableEq

/-- File-lifecycle model of one run of `blocks.py`, faithful to the order of
operations: `fin = open(in_path, "r+")` (line 75) runs first, so an
unreadable input raises *before* the output is touched and the previous
output content survives; then `fout = open(out_path, "w+")` (line 76)
truncates the output, so a `json.load` parse failure (line 80) raises with
the output already truncated to empty; only a successful run writes the
generated text.  Either failure is an uncaught exception, so the process
exits nonzero.  Arguments: the previous content of the output file and the
load outcome.  Result: the final content of the output file and whether the
process exits zero. -/
def runScript (prevOut : String) (load : LoadOutcome) : String × Bool :=
  match load with
  | .unreadable => (prevOut, false)
  | .invalid => ("", false)
  | .ok schema => (emitOutput schema, true)

/-- A well-formed snake_case name as produced by round-tripped generation:
every underscore-separated segment is nonempty and consists of lowercase
ASCII letters only. -/
def goodSnake (s : String) : Prop :=
  ∀ g ∈ splitUnderscore s.data, g ≠ [] ∧ ∀ c ∈ g, c.isLower = true

instance : DecidablePred goodSnake := fun s => by
  unfold goodSnake; infer_instance

/-- Split off the longest prefix of lowercase characters. -/
def takeLowers : List Char → List Char × List Char
  | [] => ([], [])
  | c :: cs =>
    if c.isLower then (c :: (takeLowers cs).1, (takeLowers cs).2)
    else ([], c :: cs)

/-- Parse an UpperCamelCase string back into its `Upper lowers*` segments
(the shape `snake_to_upper_camel` produces on well-formed snake names). -/
def parseCamel : List Char → List (List Char)
  | [] => []
  | c :: cs => (c :: (takeLowers cs).1) :: parseCamel (takeLowers cs).2
termination_by l => l.length
decreasing_by
  simp only [List.length_cons]
  refine Nat.lt_succ_of_le ?_
  induction cs with
  | nil => simp [takeLowers]
  | cons d ds ih =>
    by_cases h : d.isLower
    · simp only [takeLowers, h, if_true]
      exact Nat.le_succ_of_le ih
    · simp [takeLowers, h]

/-- Rejoin underscore-separated segments (left inverse of `splitUnderscore`). -/
def joinUnderscore : List (List Char) → List Char
  | [] => []
  | [g] => g
  | g :: gs => g ++ '_' :: joinUnderscore gs

/-- Owner `minecraft:torch`: a single state and no properties. -/
def torchB : BlockDef := ⟨"minecraft:torch", [], [⟨50, []⟩]⟩

/-- Owner `minecraft:oak_log`: three states over the well-known `axis`
property. -/
def oakLogB : BlockDef :=
  ⟨"minecraft:oak_log", [("axis", ["x", "y", "z"])],
    [⟨10, [("axis", "x")]⟩, ⟨11, [("axis", "y")]⟩, ⟨12, [("axis", "z")]⟩]⟩

/-- A small schema exercising both a unit and a carrier owner. -/
def demoSchema : List BlockDef := [torchB, oakLogB]

/-- An owner with exactly one state but a nonempty property list. -/
def leverOne : BlockDef :=
  ⟨"minecraft:lever", [("face", ["floor"])], [⟨3, [("face", "floor")]⟩]⟩

/-- Two owners whose states share the numeric code 7. -/
def dupA : BlockDef := ⟨"minecraft:stone", [], [⟨7, []⟩]⟩

/-- Second owner of the duplicated-code pair. -/
def dupB : BlockDef := ⟨"minecraft:dirt", [], [⟨7, []⟩]⟩

/-- A carrier owner with a keyword-colliding property name `type`. -/
def pistonHead : BlockDef :=
  ⟨"minecraft:piston_head",
    [("type", ["normal", "sticky"]), ("facing", ["north", "south"])],
    [⟨20, [("type", "normal"), ("facing", "north")]⟩,
     ⟨21, [("type", "sticky"), ("facing", "north")]⟩]⟩

/-! ## Character-level lemmas -/

theorem lowerCharFacts : ∀ n : Nat, n < 123 → 97 ≤ n →
    ((Char.ofNat n).toUpper.toLower = Char.ofNat n ∧
     (Char.ofNat n).toUpper.isLower = false ∧
     (Char.ofNat n).toUpper.isAlpha = true ∧
     (Char.ofNat n).toLower = Char.ofNat n ∧
     (Char.ofNat n).isAlpha = true) := by decide

theorem isLower_toNat {c : Char} (h : c.isLower = true) :
    97 ≤ c.toNat ∧ c.toNat < 123 := by
  simp only [Char.isLower, Bool.and_eq_true, decide_eq_true_eq, ge_iff_le] at h
  obtain ⟨h1, h2⟩ := h
  exact ⟨UInt32.le_toNat_of_le (by decide) h1,
    Nat.lt_succ_of_le (UInt32.toNat_le_of_le (by decide) h2)⟩

theorem toUpper_toLower_of_isLower {c : Char} (h : c.isLower = true) :
    c.toUpper.toLower = c := by
  obtain ⟨h1, h2⟩ := isLower_toNat h
  have hx := (lowerCharFacts c.toNat h2 h1).1
  rwa [Char.ofNat_toNat] at hx

theorem toUpper_not_isLower {c : Char} (h : c.isLower = true) :
    c.toUpper.isLower = false := by
  obtain ⟨h1, h2⟩ := isLower_toNat h
  have hx := (lowerCharFacts c.toNat h2 h1).2.1
  rwa [Char.ofNat_toNat] at hx

theorem toLower_of_isLower {c : Char} (h : c.isLower = true) :
    c.toLower = c := by
  obtain ⟨h1, h2⟩ := isLower_toNat h
  have hx := (lowerCharFacts c.toNat h2 h1).2.2.2.1
  rwa [Char.ofNat_toNat] at hx

theorem isAlpha_of_isLower {c : Char} (h : c.isLower = true) :
    c.isAlpha = true := by
  obtain ⟨h1, h2⟩ := isLower_toNat h
  have hx := (lowerCharFacts c.toNat h2 h1).2.2.2.2
  rwa [Char.ofNat_toNat] at hx

/-! ## Title-casing lemmas -/

theorem pyTitleAux_true_of_all_lower (l : List Char)
    (h : ∀ c ∈ l, c.isLower = true) : pyTitleAux true l = l := by
  induction l with
  | nil => rfl
  | cons c cs ih =>
    have hc := h c (List.mem_cons_self c cs)
    simp only [pyTitleAux, isAlpha_of_isLower hc, if_true, toLower_of_isLower hc]
    rw [ih (fun x hx => h x (List.mem_cons_of_mem _ hx))]

theorem pyTitle_good_seg (c : Char) (t : List Char) (hc : c.isLower = true)
    (ht : ∀ x ∈ t, x.isLower = true) :
    pyTitleAux false (c :: t) = c.toUpper :: t := by
  simp only [pyTitleAux, isAlpha_of_isLower hc, if_true, Bool.false_eq_true, if_false]
  rw [pyTitleAux_true_of_all_lower t ht]

/-! ## Parsing camel output back into segments -/

theorem takeLowers_append (t r : List Char) (ht : ∀ x ∈ t, x.isLower = true)
    (hr : ∀ c, r.head? = some c → c.isLower = false) :
    takeLowers (t ++ r) = (t, r) := by
  induction t with
  | nil =>
    cases r with
    | nil => rfl
    | cons c r' =>
      have hc := hr c rfl
      simp [takeLowers, hc]
  | cons c t' ih =>
    have hc := ht c (List.mem_cons_self c t')
    simp only [List.cons_append, takeLowers, hc, if_true, List.append_eq]
    rw [ih (fun x hx => ht x (List.mem_cons_of_mem _ hx))]

theorem flatten_head_not_lower (L : List (List Char))
    (h : ∀ l ∈ L, ∀ c, l.head? = some c → c.isLower = false) :
    ∀ c, L.flatten.head? = some c → c.isLower = false := by
  induction L with
  | nil => intro c hc; simp at hc
  | cons l ls ih =>
    cases l with
    | nil =>
      intro c hc
      simp only [List.flatten_cons, List.nil_append] at hc
      exact ih (fun x hx => h x (List.mem_cons_of_mem _ hx)) c hc
    | cons a l' =>
      intro c hc
      simp only [List.flatten_cons, List.cons_append, List.head?_cons,
        Option.some.injEq] at hc
      subst hc
      exact h (a :: l') (List.mem_cons_self _ _) a rfl

theorem parseCamel_flatten (segs : List (List Char))
    (h : ∀ g ∈ segs, g ≠ [] ∧ ∀ c ∈ g, c.isLower = true) :
    parseCamel ((segs.map (pyTitleAux false)).flatten) = segs.map (pyTitleAux false) := by
  induction segs with
  | nil => simp [parseCamel]
  | cons g gs ih =>
    obtain ⟨hne, hlow⟩ := h g (List.mem_cons_self g gs)
    obtain ⟨c, t, rfl⟩ : ∃ c t, g = c :: t := by
      cases g with
      | nil => exact absurd rfl hne
      | cons c t => exact ⟨c, t, rfl⟩
    have hc := hlow c (List.mem_cons_self c t)
    have ht : ∀ x ∈ t, x.isLower = true :=
      fun x hx => hlow x (List.mem_cons_of_mem _ hx)
    have hrest : ∀ ch, ((gs.map (pyTitleAux false)).flatten).head? = some ch →
        ch.isLower = false := by
      apply flatten_head_not_lower
      intro l hl ch hch
      obtain ⟨g', hg', rfl⟩ := List.mem_map.mp hl
      obtain ⟨hne', hlow'⟩ := h g' (List.mem_cons_of_mem _ hg')
      obtain ⟨c', t', rfl⟩ : ∃ c' t', g' = c' :: t' := by
        cases g' with
        | nil => exact absurd rfl hne'
        | cons c' t' => exact ⟨c', t', rfl⟩
      have hc' := hlow' c' (List.mem_cons_self c' t')
      rw [pyTitle_good_seg c' t' hc'
        (fun x hx => hlow' x (List.mem_cons_of_mem _ hx))] at hch
      simp only [List.head?_cons, Option.some.injEq] at hch
      subst hch
      exact toUpper_not_isLower hc'
    rw [List.map_cons, List.flatten_cons, pyTitle_good_seg c t hc ht,
      List.cons_append]
    simp only [parseCamel]
    rw [takeLowers_append t _ ht hrest]
    rw [ih (fun g' hg' => h g' (List.mem_cons_of_mem _ hg'))]

theorem pyTitle_inj_good (g g' : List Char)
    (hg : g ≠ [] ∧ ∀ c ∈ g, c.isLower = true)
    (hg' : g' ≠ [] ∧ ∀ c ∈ g', c.isLower = true)
    (h : pyTitleAux false g = pyTitleAux false g') : g = g' := by
  obtain ⟨hne, hlow⟩ := hg
  obtain ⟨hne', hlow'⟩ := hg'
  obtain ⟨c, t, rfl⟩ : ∃ c t, g = c :: t := by
    cases g with
    | nil => exact absurd rfl hne
    | cons c t => exact ⟨c, t, rfl⟩
  obtain ⟨c', t', rfl⟩ : ∃ c' t', g' = c' :: t' := by
    cases g' with
    | nil => exact absurd rfl hne'
    | cons c' t' => exact ⟨c', t', rfl⟩
  have hc := hlow c (List.mem_cons_self c t)
  have hc' := hlow' c' (List.mem_cons_self c' t')
  rw [pyTitle_good_seg c t hc (fun x hx => hlow x (List.mem_cons_of_mem _ hx)),
    pyTitle_good_seg c' t' hc' (fun x hx => hlow' x (List.mem_cons_of_mem _ hx))] at h
  simp only [List.cons.injEq] at h
  obtain ⟨hu, htt⟩ := h
  have : c = c' := by
    have := congrArg Char.toLower hu
    rwa [toUpper_toLower_of_isLower hc, toUpper_toLower_of_isLower hc'] at this
  exact by rw [this, htt]

theorem map_pyTitle_inj (segs1 segs2 : List (List Char))
    (h1 : ∀ g ∈ segs1, g ≠ [] ∧ ∀ c ∈ g, c.isLower = true)
    (h2 : ∀ g ∈ segs2, g ≠ [] ∧ ∀ c ∈ g, c.isLower = true)
    (h : segs1.map (pyTitleAux false) = segs2.map (pyTitleAux false)) :
    segs1 = segs2 := by
  induction segs1 generalizing segs2 with
  | nil => cases segs2 with
    | nil => rfl
    | cons g gs => simp at h
  | cons g gs ih =>
    cases segs2 with
    | nil => simp at h
    | cons g' gs' =>
      simp only [List.map_cons, List.cons.injEq] at h
      obtain ⟨hh, htl⟩ := h
      have hg := pyTitle_inj_good g g' (h1 g (List.mem_cons_self g gs))
        (h2 g' (List.mem_cons_self g' gs')) hh
      have hgs := ih gs' (fun x hx => h1 x (List.mem_cons_of_mem _ hx))
        (fun x hx => h2 x (List.mem_cons_of_mem _ hx)) htl
      rw [hg, hgs]

/-! ## Split and join -/

theorem splitUnderscore_ne_nil (l : List Char) : splitUnderscore l ≠ [] := by
  cases l with
  | nil => simp [splitUnderscore]
  | cons c cs =>
    by_cases h : c = '_'
    · simp [splitUnderscore, h]
    · simp only [splitUnderscore, if_neg h]
      cases hs : splitUnderscore cs <;> simp

theorem joinUnderscore_splitUnderscore (l : List Char) :
    joinUnderscore (splitUnderscore l) = l := by
  induction l with
  | nil => rfl
  | cons c cs ih =>
    by_cases h : c = '_'
    · subst h
      simp only [splitUnderscore, if_pos rfl]
      rcases hs : splitUnderscore cs with _ | ⟨g, gs⟩
      · exact absurd hs (splitUnderscore_ne_nil cs)
      · rw [hs] at ih
        show joinUnderscore ([] :: g :: gs) = '_' :: cs
        simp only [joinUnderscore, List.nil_append]
        rw [ih]
    · simp only [splitUnderscore, if_neg h]
      rcases hs : splitUnderscore cs with _ | ⟨g, gs⟩
      · exact absurd hs (splitUnderscore_ne_nil cs)
      · rw [hs] at ih
        cases gs with
        | nil =>
          simp only [joinUnderscore] at ih ⊢
          rw [ih]
        | cons g2 gs2 =>
          simp only [joinUnderscore] at ih ⊢
          rw [List.cons_append, ih]

/-! ## Association-list lemmas -/

theorem lookup_eq_some_of_nodup {α β : Type} [BEq α] [LawfulBEq α]
    (l : List (α × β)) (hn : (l.map Prod.fst).Nodup) {k : α} {v : β}
    (hm : (k, v) ∈ l) : l.lookup k = some v := by
  induction l with
  | nil => simp at hm
  | cons p t ih =>
    obtain ⟨a, b⟩ := p
    simp only [List.map_cons, List.nodup_cons] at hn
    rcases List.mem_cons.mp hm with heq | hmem
    · cases heq
      simp [List.lookup]
    · have hka : (k == a) = false := by
        rw [beq_eq_false_iff_ne]
        intro hk
        subst hk
        exact hn.1 (List.mem_map.mpr ⟨(k, v), hmem, rfl⟩)
      simp only [List.lookup, hka]
      exact ih hn.2 hmem

theorem find?_eq_self_of_nodup {α : Type} (f : α → String) (l : List α)
    (hn : (l.map f).Nodup) (x : α) (hx : x ∈ l) :
    l.find? (fun y => f y == f x) = some x := by
  induction l with
  | nil => simp at hx
  | cons a t ih =>
    simp only [List.map_cons, List.nodup_cons] at hn
    rcases List.mem_cons.mp hx with rfl | hmem
    · simp [List.find?]
    · have hfa : (f a == f x) = false := by
        rw [beq_eq_false_iff_ne]
        intro he
        exact hn.1 (he ▸ List.mem_map.mpr ⟨x, hmem, rfl⟩)
      simp only [List.find?, hfa]
      exact ih hn.2 hmem

theorem assoc_eq_of_lookup {β : Type} [DecidableEq β]
    (l₁ l₂ : List (String × β))
    (hk : l₁.map Prod.fst = l₂.map Prod.fst)
    (hn : (l₂.map Prod.fst).Nodup)
    (h : ∀ p ∈ l₁, l₂.lookup p.1 = some p.2) : l₁ = l₂ := by
  induction l₁ generalizing l₂ with
  | nil =>
    cases l₂ with
    | nil => rfl
    | cons q t => simp at hk
  | cons p t ih =>
    cases l₂ with
    | nil => simp at hk
    | cons q t₂ =>
      obtain ⟨a, v⟩ := p
      obtain ⟨a₂, v₂⟩ := q
      simp only [List.map_cons, List.cons.injEq] at hk
      obtain ⟨ha, htk⟩ := hk
      subst ha
      simp only [List.map_cons, List.nodup_cons] at hn
      have hv : v = v₂ := by
        have hl := h (a, v) (List.mem_cons_self _ _)
        simp [List.lookup] at hl
        exact hl.symm
      subst hv
      have htail : t = t₂ := by
        apply ih t₂ htk hn.2
        intro p' hp'
        have hl := h p' (List.mem_cons_of_mem _ hp')
        have hne : (p'.1 == a) = false := by
          rw [beq_eq_false_iff_ne]
          intro he
          apply hn.1
          rw [← htk, ← he]
          exact List.mem_map.mpr ⟨p', hp', rfl⟩
        simpa only [List.lookup, hne] using hl
      rw [htail]

/-! ## Predicate-matching lemmas for the generated encode function -/

theorem predMatches_self (fields : List (String × RVal))
    (hn : (fields.map Prod.fst).Nodup) : predMatches fields fields = true := by
  unfold predMatches
  rw [List.all_eq_true]
  intro p hp
  obtain ⟨k, v⟩ := p
  simp only [beq_iff_eq]
  exact lookup_eq_some_of_nodup fields hn hp

theorem predMatches_eq (fields sp : List (String × RVal))
    (hk : sp.map Prod.fst = fields.map Prod.fst)
    (hn : (fields.map Prod.fst).Nodup)
    (h : predMatches fields sp = true) : sp = fields := by
  apply assoc_eq_of_lookup sp fields hk hn
  intro p hp
  have hx := (List.all_eq_true.mp h) p hp
  simpa using hx

/-! ## Decode-mapping membership -/

theorem mem_decodeEntries (schema : List BlockDef) (b : BlockDef) (s : StateDef)
    (hb : b ∈ schema) (hs : s ∈ b.states) :
    (s.id, stateValue b s) ∈ decodeEntries schema := by
  unfold decodeEntries
  rw [List.mem_flatMap]
  exact ⟨b, hb, List.mem_map.mpr ⟨s, hs, rfl⟩⟩

theorem stateValue_name (b : BlockDef) (s : StateDef) :
    (stateValue b s).name = blockCamel b := by
  unfold stateValue
  split <;> rfl

/-- Claim C1: for every State in the input schema (with the schema satisfying
the declared invariants: globally unique numeric codes, distinct generated
variant names, per-state field lists with distinct keys, a common key list
across one Owner's states, and mutually exclusive state assignments), the
generated mappings round-trip: the generated `block_state_id` maps the
variant-value built for that State to its numeric code, and the generated
`from_block_state_id` maps that numeric code back to the same variant-value;
hence `Decode(Encode(v)) = v` and `Encode(Decode(code)) = code`. -/
theorem c1_round_trip (schema : List BlockDef)
    (Hcamel : (schema.map blockCamel).Nodup)
    (Hids : ((decodeEntries schema).map Prod.fst).Nodup)
    (Hkeys : ∀ b ∈ schema, ∀ s ∈ b.states,
      ((statePropsR (blockCamel b) s).map Prod.fst).Nodup)
    (Hsame : ∀ b ∈ schema, ∀ s ∈ b.states, ∀ s2 ∈ b.states,
      (statePropsR (blockCamel b) s).map Prod.fst
        = (statePropsR (blockCamel b) s2).map Prod.fst)
    (Hdist : ∀ b ∈ schema, (b.states.map (statePropsR (blockCamel b))).Nodup)
    (b : BlockDef) (hb : b ∈ schema) (s : StateDef) (hs : s ∈ b.states) :
    blockStateId schema (stateValue b s) = some s.id ∧
    fromBlockStateId schema s.id = some (stateValue b s) := by
  constructor
  · have hfind : schema.find? (fun x => blockCamel x == blockCamel b) = some b :=
      find?_eq_self_of_nodup blockCamel schema Hcamel b hb
    by_cases hu : isUnit b
    · have hlen : b.states.length = 1 := by simpa [isUnit] using hu
      obtain ⟨a, ha⟩ := List.length_eq_one.mp hlen
      have hsa : s = a := by
        rw [ha] at hs
        simpa using hs
      subst hsa
      have hsv : stateValue b s = ⟨blockCamel b, none⟩ := by
        unfold stateValue
        rw [if_pos hu]
      rw [hsv]
      simp only [blockStateId, hfind]
      rw [if_pos hu, ha]
      rfl
    · have hsv : stateValue b s
          = ⟨blockCamel b, some (statePropsR (blockCamel b) s)⟩ := by
        unfold stateValue
        rw [if_neg hu]
      rw [hsv]
      simp only [blockStateId, hfind]
      rw [if_neg hu]
      unfold encodeBlock
      have hself : predMatches (statePropsR (blockCamel b) s)
          (statePropsR (blockCamel b) s) = true :=
        predMatches_self _ (Hkeys b hb s hs)
      have hex : (b.states.find? (fun s2 => predMatches
          (statePropsR (blockCamel b) s) (statePropsR (blockCamel b) s2))).isSome := by
        rw [List.find?_isSome]
        exact ⟨s, hs, hself⟩
      obtain ⟨x, hx⟩ := Option.isSome_iff_exists.mp hex
      have hxm : x ∈ b.states := List.mem_of_find?_eq_some hx
      have hxp : predMatches (statePropsR (blockCamel b) s)
          (statePropsR (blockCamel b) x) = true := by
        have := List.find?_some hx
        simpa using this
      have hxeq : statePropsR (blockCamel b) x = statePropsR (blockCamel b) s :=
        predMatches_eq _ _ (Hsame b hb x hxm s hs) (Hkeys b hb s hs) hxp
      have hxs : x = s := List.inj_on_of_nodup_map (Hdist b hb) hxm hs hxeq
      subst hxs
      rw [hx]
      rfl
  · exact lookup_eq_some_of_nodup _ Hids (mem_decodeEntries schema b s hb hs)

theorem c1_round_trip_witness :
    oakLogB ∈ demoSchema ∧
    blockStateId demoSchema (stateValue oakLogB ⟨11, [("axis", "y")]⟩) = some 11 ∧
    fromBlockStateId demoSchema 11
      = some (stateValue oakLogB ⟨11, [("axis", "y")]⟩) :=
  ⟨by decide, c1_round_trip demoSchema (by decide) (by decide) (by decide)
    (by decide) (by decide) oakLogB (by decide) ⟨11, [("axis", "y")]⟩ (by decide)⟩

/-- Claim C2 counterexample: the type resolver *does* base its decision on a
strict subset of the domain values — only the first one.  For the domain
`["true", "north"]` it returns `bool` although `"north"` is neither `"true"`
nor `"false"`; and the negative integer literal `"-1"` is not resolved as
`i32` but as a synthesized enum, because Python `isdigit` rejects the sign. -/
theorem c2_counterexample :
    field_type ("RedstoneLamp") "lit" ["true", "north"] = "bool" ∧
    ("north" ∈ (["true", "north"] : List String) ∧
      "north" ≠ "true" ∧ "north" ≠ "false") ∧
    field_type ("Repeater") "delay" ["-1"] = "RepeaterDelay" ∧
    field_type ("Repeater") "delay" ["-1"] ≠ "i32" := by decide

/-- Claim C2 (amended): the resolver inspects only the *first* domain value:
for a name outside the well-known registry it returns `bool` iff the first
value is the literal `"true"` or `"false"`, `i32` iff the first value is a
nonempty all-digits string (so negative literals are excluded), and the
synthesized enum name otherwise — the values after the first are ignored
entirely. -/
theorem c2_first_value_only (camel name v : String) (rest rest2 : List String)
    (h : name ∉ KNOWN_PROPERTIES) :
    field_type camel name (v :: rest) = field_type camel name (v :: rest2) ∧
    field_type camel name (v :: rest) =
      (if v = "true" ∨ v = "false" then ("bool")
       else if pyIsDigit v then ("i32")
       else camel ++ snake_to_upper_camel name) := by
  unfold field_type get_type_from_value
  simp only [List.headD_cons, if_neg h]
  refine ⟨trivial, ?_⟩
  split_ifs with h1 h2 <;> simp_all

/-- Witness for `c2_first_value_only` at a concrete attribute. -/
theorem c2_first_value_only_witness :
    ("lit" : String) ∉ KNOWN_PROPERTIES ∧
    (field_type ("RedstoneLamp") "lit" ("true" :: ["north"])
        = field_type ("RedstoneLamp") "lit" ("true" :: []) ∧
      field_type ("RedstoneLamp") "lit" ("true" :: ["north"])
        = (if ("true" : String) = "true" ∨ ("true" : String) = "false" then ("bool")
           else if pyIsDigit ("true") then ("i32")
           else ("RedstoneLamp") ++ snake_to_upper_camel ("lit"))) :=
  ⟨by decide, c2_first_value_only ("RedstoneLamp") "lit" "true" ["north"] [] (by decide)⟩

/-- Claim C3 counterexample: the struct-field resolver chooses the well-known
enum even when the attribute's values are all booleans: an attribute named
`facing` whose domain is `["true", "false"]` is typed `Facing`, not `bool`,
because the `KNOWN_PROPERTIES` override in the properties loop is not gated
on the symbolic case. -/
theorem c3_counterexample :
    field_type ("Lever") "facing" ["true", "false"] = "Facing" ∧
    ("Facing" : String) ≠ "bool" ∧
    get_type_from_value ("true") = "bool" ∧
    get_type_from_value ("false") = "bool" := by decide

/-- Claim C3 (amended): in the struct-field resolver the well-known override is
unconditional — any attribute whose name is in the registry is typed with the
well-known enum regardless of its values; only the per-state value conversion
(`rust_val`) restricts the override to the symbolic (`"_enum"`) case, keeping
boolean and integer literals as such. -/
theorem c3_wellknown_override_unconditional (camel name : String)
    (vals : List String) (h : name ∈ KNOWN_PROPERTIES) :
    field_type camel name vals = snake_to_upper_camel name ∧
    (∀ v, get_type_from_value v ≠ "_enum" →
      rust_val camel name v =
        (if get_type_from_value v = "bool" then RVal.b (v = "true")
         else RVal.i (digitsToNat v))) := by
  constructor
  · unfold field_type
    simp only [if_pos h]
    have hne : snake_to_upper_camel name ≠ "_enum" := by
      fin_cases h <;> decide
    rw [if_neg hne]
  · intro v hv
    unfold rust_val
    simp only [if_neg hv]

/-- Witness for `c3_wellknown_override_unconditional` at `facing`. -/
theorem c3_wellknown_override_unconditional_witness :
    ("facing" : String) ∈ KNOWN_PROPERTIES ∧
    (field_type ("Lever") "facing" ["true", "false"] = snake_to_upper_camel ("facing") ∧
      (∀ v, get_type_from_value v ≠ "_enum" →
        rust_val ("Lever") "facing" v =
          (if get_type_from_value v = "bool" then RVal.b (v = "true")
           else RVal.i (digitsToNat v)))) :=
  ⟨by decide,
    c3_wellknown_override_unconditional ("Lever") "facing" ["true", "false"] (by decide)⟩

/-- Claim C4 counterexample: an Owner with exactly one State but a nonempty
attribute list is still emitted as a `Unit` variant — the script only tests
`len(states) == 1` and never consults the attribute names, so `leverOne`
(one state, one attribute `face`) gets no payload. -/
theorem c4_counterexample :
    leverOne.properties ≠ [] ∧
    (enumVariant leverOne).2 = none ∧
    stateValue leverOne ⟨3, [("face", "floor")]⟩ = ⟨"Lever", none⟩ := by decide

/-- Claim C4 (amended): the generator emits a `Unit` variant iff the Owner has
exactly one State, regardless of how many attribute names it declares; every
other Owner gets a `Carrier` variant with the attribute-holder payload type
`<Camel>Data`. -/
theorem c4_unit_iff_single_state (b : BlockDef) :
    ((enumVariant b).2 = none ↔ b.states.length = 1) ∧
    ((enumVariant b).2 = some (blockCamel b ++ "Data") ↔ b.states.length ≠ 1) := by
  unfold enumVariant isUnit
  by_cases h : b.states.length = 1
  · simp [h]
  · simp [h]

/-- Claim C5 counterexample: two States sharing numericCode 7 are *not*
detected: the generator emits both decode arms (no failure outcome exists in
the construction at all), and the generated `match` silently resolves code 7
to the first emitted arm (`Stone`), shadowing the second (`Dirt`). -/
theorem c5_counterexample :
    (decodeEntries [dupA, dupB]).map Prod.fst = [7, 7] ∧
    fromBlockStateId [dupA, dupB] 7 = some ⟨"Stone", none⟩ ∧
    stateValue dupB ⟨7, []⟩ = ⟨"Dirt", none⟩ ∧
    (⟨"Stone", none⟩ : BlockValue) ≠ ⟨"Dirt", none⟩ := by decide

/-- Claim C5 (amended): the generator performs no duplicate-code detection
during mapping construction: every State of every Owner contributes its
decode arm unconditionally — duplicates included — and a duplicated code is
silently resolved by the generated match to the first emitted arm. -/
theorem c5_no_duplicate_detection (schema : List BlockDef) (b : BlockDef)
    (s : StateDef) (hb : b ∈ schema) (hs : s ∈ b.states) :
    (s.id, stateValue b s) ∈ decodeEntries schema :=
  mem_decodeEntries schema b s hb hs

/-- Witness for `c5_no_duplicate_detection`: the shadowed duplicate's arm is
still emitted. -/
theorem c5_no_duplicate_detection_witness :
    (dupB ∈ [dupA, dupB] ∧ (⟨7, []⟩ : StateDef) ∈ dupB.states) ∧
    ((7 : Nat), stateValue dupB ⟨7, []⟩) ∈ decodeEntries [dupA, dupB] :=
  ⟨⟨by decide, by decide⟩,
    c5_no_duplicate_detection [dupA, dupB] dupB ⟨7, []⟩ (by decide) (by decide)⟩

/-- Claim C6 counterexample: a run failing in `json.load` does *not* leave
the output target untouched: `blocks.py` opens the output file with `"w+"`
(truncating it) before `json.load` runs, so when the parse fails the
previous output content is already gone — the run exits nonzero with an
empty (truncated) output file. -/
theorem c6_counterexample :
    runScript ("// previously generated output") LoadOutcome.invalid
      = ("", false) ∧
    ("// previously generated output" : String) ≠ "" := by decide

/-- Claim C6 (amended): the program exits non-zero on every load failure, but
the no-partial-output guarantee holds only for the unreadable-input case:
the input is opened (line 75) before the output, so an unreadable input
aborts with the previous output intact, whereas a structurally invalid input
fails in `json.load` (line 80) only after the output has been opened with
`"w+"` (line 76) and truncated, so that failing run leaves the output empty
instead of the previous content; the full generated text is written, with
exit code zero, only on success. -/
theorem c6_truncates_on_parse_failure (prev : String) (hprev : prev ≠ "")
    (schema : List BlockDef) :
    runScript prev LoadOutcome.unreadable = (prev, false) ∧
    (runScript prev LoadOutcome.invalid).1 ≠ prev ∧
    (runScript prev LoadOutcome.invalid).2 = false ∧
    runScript prev (LoadOutcome.ok schema) = (emitOutput schema, true) :=
  ⟨rfl, fun h => hprev h.symm, rfl, rfl⟩

/-- Witness for `c6_truncates_on_parse_failure` on a concrete previous
content. -/
theorem c6_truncates_on_parse_failure_witness :
    ("old output" : String) ≠ "" ∧
    (runScript ("old output") LoadOutcome.unreadable = ("old output", false) ∧
      (runScript ("old output") LoadOutcome.invalid).1 ≠ "old output" ∧
      (runScript ("old output") LoadOutcome.invalid).2 = false ∧
      runScript ("old output") (LoadOutcome.ok demoSchema)
        = (emitOutput demoSchema, true)) :=
  ⟨by decide,
    c6_truncates_on_parse_failure ("old output") (by decide) demoSchema⟩

/-- Function `process_property_name` fixes exactly the non-keywords. -/
theorem process_property_name_eq_iff (s : String) :
    process_property_name s = s ↔ s ∉ KEYWORDS := by
  unfold process_property_name
  by_cases h : s ∈ KEYWORDS
  · simp only [if_pos h]
    constructor
    · intro he
      exfalso
      have hlen := congrArg String.length he
      rw [String.length_append] at hlen
      have h1 : ("_" : String).length = 1 := rfl
      rw [h1] at hlen
      omega
    · intro hn
      exact absurd h hn
  · simp [h]

/-- Claim C7 counterexample: for the carrier Owner `piston_head` with the
keyword-colliding attribute `type`, the key recorded in the generated
`property_names` map is the *escaped* field name `"type_"`, not the original
schema name `"type"` — `blocks.py` reassigns `prop_name` via
`process_property_name` before emitting the `m.insert(...)` line. -/
theorem c7_counterexample :
    pistonHead.properties.map Prod.fst = ["type", "facing"] ∧
    propertyNamesKeys pistonHead = ["type_", "facing"] ∧
    ("type_" : String) ≠ "type" := by decide

/-- Claim C7 (amended): for every Carrier Owner the `property_names` keys are
the keyword-escaped field names — identical to the original snake_case
attribute names exactly when no attribute name is a Rust keyword; a
keyword-colliding name such as `type` or `in` appears with the underscore
suffix. -/
theorem c7_keys_are_escaped (b : BlockDef) (h : isUnit b = false) :
    propertyNamesKeys b = b.properties.map (fun p => process_property_name p.1) ∧
    (propertyNamesKeys b = b.properties.map Prod.fst ↔
      ∀ p ∈ b.properties, p.1 ∉ KEYWORDS) := by
  have h1 : propertyNamesKeys b
      = b.properties.map (fun p => process_property_name p.1) := by
    unfold propertyNamesKeys
    rw [h]
    simp
  refine ⟨h1, ?_⟩
  rw [h1, List.map_eq_map_iff]
  constructor
  · intro hh p hp
    exact (process_property_name_eq_iff p.1).mp (hh p hp)
  · intro hh p hp
    exact (process_property_name_eq_iff p.1).mpr (hh p hp)

/-- Witness for `c7_keys_are_escaped` at the `piston_head` owner. -/
theorem c7_keys_are_escaped_witness :
    isUnit pistonHead = false ∧
    (propertyNamesKeys pistonHead
        = pistonHead.properties.map (fun p => process_property_name p.1) ∧
      (propertyNamesKeys pistonHead = pistonHead.properties.map Prod.fst ↔
        ∀ p ∈ pistonHead.properties, p.1 ∉ KEYWORDS)) :=
  ⟨by decide, c7_keys_are_escaped pistonHead (by decide)⟩

/-- Claim C8 counterexample: the generated `name` function returns the Owner's
*namespaced* identifier: for the owner declared as `minecraft:torch` (whose
generated variant is `Torch`), `name` yields `"minecraft:torch"`, not
`"torch"`. -/
theorem c8_counterexample :
    blockCamel torchB = "Torch" ∧
    nameOf [torchB] ⟨"Torch", none⟩ = some ("minecraft:torch") ∧
    nameOf [torchB] ⟨"Torch", none⟩ ≠ some ("torch") := by decide

/-- Claim C8 (amended): for every State of every Owner, the generated `name`
function returns the Owner's original *namespaced* identifier (e.g.
`"minecraft:torch"`), independent of the attribute payload: every value
carrying the Owner's variant name maps to the same identifier string. -/
theorem c8_name_returns_identifier (schema : List BlockDef)
    (Hcamel : (schema.map blockCamel).Nodup) (b : BlockDef) (hb : b ∈ schema)
    (s : StateDef) (_hs : s ∈ b.states) :
    nameOf schema (stateValue b s) = some b.identifier ∧
    ∀ fields, nameOf schema ⟨blockCamel b, fields⟩ = some b.identifier := by
  have hfind : schema.find? (fun x => blockCamel x == blockCamel b) = some b :=
    find?_eq_self_of_nodup blockCamel schema Hcamel b hb
  constructor
  · simp only [nameOf, stateValue_name, hfind]
    rfl
  · intro fields
    show (schema.find? (fun x => blockCamel x == blockCamel b)).map
      (fun b => b.identifier) = some b.identifier
    rw [hfind]
    rfl

/-- Witness for `c8_name_returns_identifier` at the torch owner. -/
theorem c8_name_returns_identifier_witness :
    (torchB ∈ demoSchema ∧ (⟨50, []⟩ : StateDef) ∈ torchB.states) ∧
    (nameOf demoSchema (stateValue torchB ⟨50, []⟩) = some ("minecraft:torch") ∧
      ∀ fields, nameOf demoSchema ⟨blockCamel torchB, fields⟩
        = some ("minecraft:torch")) :=
  ⟨⟨by decide, by decide⟩,
    c8_name_returns_identifier demoSchema (by decide) torchB (by decide)
      ⟨50, []⟩ (by decide)⟩

/-- Claim C9 counterexample: the snake→camel conversion is *not* injective on
names with embedded numerals: Python `title()` uppercases a letter following
a digit, so `hello2world` and `hello2_world` both camel-case to
`Hello2World`, and no exact textual inverse transform can exist for such
names. -/
theorem c9_counterexample :
    snake_to_upper_camel ("hello2world") = snake_to_upper_camel ("hello2_world") ∧
    ("hello2world" : String) ≠ "hello2_world" := by decide

/-- Claim C9 (amended): the camel-casing is injective — and hence an exact
textual inverse exists — on the names whose underscore-separated segments are
nonempty and consist of lowercase ASCII letters only; names with embedded
numerals or empty segments can collide (see the counterexample), so the
claimed inversion does not extend to them. -/
theorem c9_camel_injective_on_lower (s t : String) (hs : goodSnake s)
    (ht : goodSnake t)
    (h : snake_to_upper_camel s = snake_to_upper_camel t) : s = t := by
  unfold snake_to_upper_camel at h
  have hdata : ((splitUnderscore s.data).map (pyTitleAux false)).flatten
      = ((splitUnderscore t.data).map (pyTitleAux false)).flatten :=
    congrArg String.data h
  have h2 := congrArg parseCamel hdata
  rw [parseCamel_flatten _ hs, parseCamel_flatten _ ht] at h2
  have h3 := map_pyTitle_inj _ _ hs ht h2
  have h4 := congrArg joinUnderscore h3
  rw [joinUnderscore_splitUnderscore, joinUnderscore_splitUnderscore] at h4
  cases s
  cases t
  exact congrArg String.mk h4

/-- Witness for `c9_camel_injective_on_lower` on a concrete well-formed
name. -/
theorem c9_camel_injective_on_lower_witness :
    goodSnake ("oak_log") ∧ ("oak_log" : String) = "oak_log" :=
  ⟨by decide, c9_camel_injective_on_lower ("oak_log") "oak_log" (by decide)
    (by decide) rfl⟩

/-- Claim C10: the block name is obtained by unconditionally dropping exactly
the first ten characters of the identifier: prefixing `minecraft:` is exactly
undone, every identifier (whatever its namespace) loses its first ten
characters with no error path, and an identifier in a different namespace is
silently mangled — `feather:torch` becomes block name `rch` (camel `Rch`)
rather than being rejected. -/
theorem c10_strip_unconditional (name : String) :
    strip_minecraft_identifier ("minecraft:" ++ name) = name ∧
    (strip_minecraft_identifier name).data = name.data.drop 10 ∧
    strip_minecraft_identifier ("feather:torch") = "rch" ∧
    blockCamel ⟨"feather:torch", [], []⟩ = "Rch" := by
  refine ⟨?_, rfl, by decide, by decide⟩
  unfold strip_minecraft_identifier
  rw [String.data_append]
  rw [List.drop_left' (by rfl : ("minecraft:".data).length = 10)]
